import Mathlib

/-!
Verification development for the SD-MIAE repository (`sdmiae.py`).

The numerically meaningful core of the program is embedded shallowly:

* Tensors (images, latents, gradients) are modelled componentwise as functions
  from a finite index type into `ℚ` (exact arithmetic in place of float32;
  `torch` elementwise operations become pointwise rational operations).
* The classifier together with its cross-entropy loss is abstracted as an
  opaque gradient oracle `gradOf : Tensor ι → Tensor ι` mapping the current
  image tensor to the gradient of the loss with respect to that image
  (the spec itself treats the classifier as an opaque differentiable
  function with exactly this contract).
* The Stable Diffusion pipeline pieces used by `forward_diffusion`
  (scheduler input scaling, UNet, scheduler step, VAE decoding,
  postprocessing) are abstracted as opaque components of a
  `DiffusionModel` record; the classifier-free guidance combination,
  which the source computes itself, is embedded concretely.
* Python's `ZeroDivisionError` (raised by `epsilon / num_iter` at
  `num_iter = 0`) is modelled by returning `Except.error`.
-/

namespace SDMIAE

/-- A tensor (image batch, latent, gradient, ...) modelled componentwise:
`ι` indexes all components (batch, channel and spatial dimensions flattened). -/
abbrev Tensor (ι : Type) := ι → ℚ

/-- `torch.sign`, componentwise on one entry: `sign x = 1` for positive `x`,
`-1` for negative `x` and `0` at `0`. -/
def rsign (x : ℚ) : ℚ := if 0 < x then 1 else if x < 0 then -1 else 0

/-- `torch.clamp(x, 0, 1)` on one component (source line 77). -/
def clamp01 (x : ℚ) : ℚ := min (max x 0) 1

/-- `torch.norm(v, p=1)`: the L1 norm of the whole tensor (source line 62). -/
def l1norm {ι : Type} [Fintype ι] (v : Tensor ι) : ℚ := ∑ i, |v i|

/-- Gradient normalization of source line 62:
`gradient /= torch.norm(gradient, p=1) + 1e-10`. -/
def normalizeGrad {ι : Type} [Fintype ι] (g : Tensor ι) : Tensor ι :=
  fun i => g i / (l1norm g + 1 / 10 ^ 10)

/-- The mutable state carried across iterations of `sdmiae_attack`:
the current image tensor and the momentum accumulator. -/
structure AttackState (ι : Type) where
  images : Tensor ι
  momentum : Tensor ι

/-- Initial attack state (source lines 46-48): the input images and a zero
momentum tensor. -/
def attackInit {ι : Type} (images : Tensor ι) : AttackState ι :=
  ⟨images, fun _ => 0⟩

/-- One iteration of the `for t in range(num_iter)` loop of `sdmiae_attack`
(source lines 51-79): compute the loss gradient at the current images,
normalize it by its L1 norm plus `1e-10`, accumulate momentum as
`mu * momentum + gradient`, step the images by `alpha * sign(momentum)`,
clamp to the epsilon ball around `original_images` when `use_epsilon` is
set, and finally clamp to `[0, 1]` unconditionally. -/
def attackStep {ι : Type} [Fintype ι] (gradOf : Tensor ι → Tensor ι)
    (original_images : Tensor ι) (epsilon alpha mu : ℚ) (use_epsilon : Bool)
    (s : AttackState ι) : AttackState ι :=
  let gradient := normalizeGrad (gradOf s.images)
  let momentum : Tensor ι := fun i => mu * s.momentum i + gradient i
  let stepped : Tensor ι := fun i => s.images i + alpha * rsign (momentum i)
  let bounded : Tensor ι :=
    if use_epsilon then
      fun i => max (min (stepped i) (original_images i + epsilon))
        (original_images i - epsilon)
    else stepped
  ⟨fun i => clamp01 (bounded i), momentum⟩

/-- `sdmiae_attack` (source lines 34-81).  `original_images` is the snapshot
of the input taken at line 47; `alpha = epsilon / num_iter` is computed once
at line 49 — in Python this raises `ZeroDivisionError` when `num_iter = 0`,
modelled by the `Except.error` branch, before the classifier is ever
evaluated and before any image is modified.  Otherwise the loop body
`attackStep` runs exactly `num_iter` times and the final images are
returned. -/
def sdmiae_attack {ι : Type} [Fintype ι] (gradOf : Tensor ι → Tensor ι)
    (images : Tensor ι) (epsilon : ℚ) (num_iter : ℕ) (mu : ℚ)
    (use_epsilon : Bool) : Except String (Tensor ι) :=
  if num_iter = 0 then .error "ZeroDivisionError"
  else .ok (((attackStep gradOf images epsilon (epsilon / (num_iter : ℚ)) mu
      use_epsilon)^[num_iter] (attackInit images)).images)

/-- The diffusion-pipeline collaborators used by `forward_diffusion`,
treated as opaque (spec section 6): scheduler input scaling, the UNet
queried on the duplicated latent batch — returning the pair
(unconditional prediction, text-conditional prediction), i.e. the two
halves produced by `noise_pred.chunk(2)` at source line 103 — the
scheduler single-step update, the VAE scaling constant and decoder, and
the image postprocessor. -/
structure DiffusionModel (ι κ : Type) where
  scale_model_input : ℕ → Tensor ι → Tensor ι
  unet : ℕ → Tensor ι → Tensor ι × Tensor ι
  scheduler_step : Tensor ι → ℕ → Tensor ι → Tensor ι
  scaling_factor : ℚ
  vae_decode : Tensor ι → Tensor κ
  postprocess : Tensor κ → Tensor κ

/-- The classifier-free guidance combination of source line 104:
`noise_pred_uncond + guidance_scale * (noise_pred_text - noise_pred_uncond)`,
componentwise. -/
def guidance_combine {ι : Type} (guidance_scale : ℚ)
    (noise_pred_uncond noise_pred_text : Tensor ι) : Tensor ι :=
  fun i => noise_pred_uncond i + guidance_scale *
    (noise_pred_text i - noise_pred_uncond i)

/-- One iteration of the timestep loop of `forward_diffusion`
(source lines 99-105): scale the model input, query the UNet, split the
prediction into its unconditional and conditional halves, combine them by
classifier-free guidance, and advance the latent through the scheduler. -/
def diffusion_denoise_step {ι κ : Type} (M : DiffusionModel ι κ)
    (guidance_scale : ℚ) (latents : Tensor ι) (t : ℕ) : Tensor ι :=
  let latent_model_input := M.scale_model_input t latents
  let preds := M.unet t latent_model_input
  let noise_pred := guidance_combine guidance_scale preds.1 preds.2
  M.scheduler_step noise_pred t latents

/-- `forward_diffusion` (source lines 83-110): fold the denoising step over
the timestep sequence, divide the final latent by the VAE scaling factor,
decode and postprocess. -/
def forward_diffusion {ι κ : Type} (M : DiffusionModel ι κ)
    (timesteps : List ℕ) (guidance_scale : ℚ) (latents : Tensor ι) :
    Tensor κ :=
  let final := timesteps.foldl (diffusion_denoise_step M guidance_scale) latents
  M.postprocess (M.vae_decode (fun i => final i / M.scaling_factor))

/-- The value held by the caller's `latents` tensor after `forward_diffusion`
returns.  In the source every update to `latents` inside `forward_diffusion`
(lines 100, 101, 105, 107) rebinds the local name to a freshly created
tensor (`torch.cat`, `scale_model_input`, `scheduler.step` and the division
all allocate new tensors); no in-place operation ever targets the argument,
so the caller's tensor still holds exactly the values it held before the
call. -/
def forward_diffusion_callerLatents {ι κ : Type} (_M : DiffusionModel ι κ)
    (_timesteps : List ℕ) (_guidance_scale : ℚ) (latents : Tensor ι) :
    Tensor ι := latents

/-- The per-class body of `main` (source lines 142-170), sliced to the data
flow of the latent tensor.  `randn` is the stream of fresh standard-normal
draws available to this class, in the order `torch.randn` would produce
them.  The source draws *one* latent tensor per class (lines 153-155),
scales it by `init_noise_sigma`, and then runs the per-sample loop
(line 158) in which each sample passes that same tensor to
`forward_diffusion`; the result records, for each sample index, the latent
passed to `forward_diffusion` and the diffusion output.  (The subsequent
adversarial attack and image persistence consume the diffusion output and
do not touch the latent.) -/
def processClass {ι κ : Type} (M : DiffusionModel ι κ) (randn : ℕ → Tensor ι)
    (init_noise_sigma : ℚ) (timesteps : List ℕ) (guidance_scale : ℚ)
    (num_samples_per_class : ℕ) : List (Tensor ι × Tensor κ) :=
  let latents : Tensor ι := fun x => randn 0 x * init_noise_sigma
  (List.range num_samples_per_class).map fun _j =>
    (latents, forward_diffusion M timesteps guidance_scale latents)

/-! ## Basic lemmas about the embedded primitives -/

lemma rsign_of_pos {x : ℚ} (h : 0 < x) : rsign x = 1 := by
  simp [rsign, h]

lemma abs_rsign_le_one (x : ℚ) : |rsign x| ≤ 1 := by
  unfold rsign
  split_ifs <;> simp

lemma l1norm_nonneg {ι : Type} [Fintype ι] (v : Tensor ι) : 0 ≤ l1norm v :=
  Finset.sum_nonneg fun _ _ => abs_nonneg _

/-- The gradient-normalization denominator of source line 62 is strictly
positive: the L1 norm is nonnegative and the stabilizing constant `1e-10`
is positive. -/
lemma l1norm_denom_pos {ι : Type} [Fintype ι] (v : Tensor ι) :
    0 < l1norm v + 1 / 10 ^ 10 :=
  add_pos_of_nonneg_of_pos (l1norm_nonneg v) (by norm_num)

lemma normalizeGrad_pos {ι : Type} [Fintype ι] (g : Tensor ι) (i : ι)
    (h : 0 < g i) : 0 < normalizeGrad g i :=
  div_pos h (l1norm_denom_pos g)

lemma clamp01_nonneg (x : ℚ) : 0 ≤ clamp01 x :=
  le_min (le_max_right x 0) zero_le_one

lemma clamp01_le_one (x : ℚ) : clamp01 x ≤ 1 :=
  min_le_right _ _

lemma clamp01_of_mem {x : ℚ} (h0 : 0 ≤ x) (h1 : x ≤ 1) : clamp01 x = x := by
  unfold clamp01
  rw [max_eq_left h0, min_eq_left h1]

/-- Clamping to `[0, 1]` never moves a value further away from a point `c`
that already lies in `[0, 1]`. -/
lemma abs_clamp01_sub_le {c : ℚ} (h0 : 0 ≤ c) (h1 : c ≤ 1) (y : ℚ) :
    |clamp01 y - c| ≤ |y - c| := by
  have hy1 : y - c ≤ |y - c| := le_abs_self _
  have hy2 : -(y - c) ≤ |y - c| := neg_le_abs _
  have habs : 0 ≤ |y - c| := abs_nonneg _
  rw [abs_le]
  unfold clamp01
  constructor
  · have h2 : c - |y - c| ≤ max y 0 := le_trans (by linarith) (le_max_left y 0)
    have h3 : c - |y - c| ≤ 1 := by linarith
    have := le_min h2 h3
    linarith
  · have h2 : max y 0 ≤ c + |y - c| := max_le (by linarith) (by linarith)
    have := le_trans (min_le_left (max y 0) 1) h2
    linarith

/-- The epsilon-ball clamp of source line 71 projects into
`[c - eps, c + eps]`. -/
lemma ball_clamp_mem (c eps x : ℚ) (he : 0 ≤ eps) :
    c - eps ≤ max (min x (c + eps)) (c - eps) ∧
      max (min x (c + eps)) (c - eps) ≤ c + eps :=
  ⟨le_max_right _ _, max_le (min_le_right _ _) (by linarith)⟩

/-- The `[0, 1]` clamp keeps a value inside the epsilon ball around a
center that itself lies in `[0, 1]`. -/
lemma clamp01_ball_mem {c eps b : ℚ} (h0 : 0 ≤ c) (h1 : c ≤ 1)
    (hb1 : c - eps ≤ b) (hb2 : b ≤ c + eps) :
    c - eps ≤ clamp01 b ∧ clamp01 b ≤ c + eps := by
  unfold clamp01
  constructor
  · exact le_min (le_trans hb1 (le_max_left b 0)) (by linarith)
  · exact le_trans (min_le_left _ _) (max_le hb2 (by linarith))

/-! ## Pointwise unfolding of one attack iteration -/

lemma attackStep_images_true {ι : Type} [Fintype ι]
    (gradOf : Tensor ι → Tensor ι) (orig : Tensor ι) (eps alpha mu : ℚ)
    (s : AttackState ι) (i : ι) :
    (attackStep gradOf orig eps alpha mu true s).images i =
      clamp01 (max (min (s.images i + alpha *
          rsign (mu * s.momentum i + normalizeGrad (gradOf s.images) i))
        (orig i + eps)) (orig i - eps)) := rfl

lemma attackStep_images_false {ι : Type} [Fintype ι]
    (gradOf : Tensor ι → Tensor ι) (orig : Tensor ι) (eps alpha mu : ℚ)
    (s : AttackState ι) (i : ι) :
    (attackStep gradOf orig eps alpha mu false s).images i =
      clamp01 (s.images i + alpha *
        rsign (mu * s.momentum i + normalizeGrad (gradOf s.images) i)) := rfl

lemma attackStep_momentum {ι : Type} [Fintype ι]
    (gradOf : Tensor ι → Tensor ι) (orig : Tensor ι) (eps alpha mu : ℚ)
    (use_epsilon : Bool) (s : AttackState ι) (i : ι) :
    (attackStep gradOf orig eps alpha mu use_epsilon s).momentum i =
      mu * s.momentum i + normalizeGrad (gradOf s.images) i := rfl

/-- Whatever the branch, the image written by one attack iteration is the
`[0, 1]`-clamp of some value (source line 77 runs unconditionally). -/
lemma attackStep_images_mem {ι : Type} [Fintype ι]
    (gradOf : Tensor ι → Tensor ι) (orig : Tensor ι) (eps alpha mu : ℚ)
    (use_epsilon : Bool) (s : AttackState ι) (i : ι) :
    0 ≤ (attackStep gradOf orig eps alpha mu use_epsilon s).images i ∧
      (attackStep gradOf orig eps alpha mu use_epsilon s).images i ≤ 1 := by
  cases use_epsilon
  · rw [attackStep_images_false]
    exact ⟨clamp01_nonneg _, clamp01_le_one _⟩
  · rw [attackStep_images_true]
    exact ⟨clamp01_nonneg _, clamp01_le_one _⟩

/-! ## Claim theorems -/

/-- C5: the classifier-free guidance combination computed on each diffusion
step (source line 104) equals `U + g * (C - U)` componentwise for the
unconditional prediction `U`, the conditional prediction `C` and the
guidance scale `g`; with `g = 1` it equals `C` exactly, with `g = 0` it
equals `U` exactly; and each iteration of the denoising loop advances the
latent using exactly this combination of the two UNet prediction halves. -/
theorem guidance_combine_spec {ι κ : Type} (M : DiffusionModel ι κ)
    (U C : Tensor ι) (g : ℚ) (t : ℕ) (latents : Tensor ι) :
    (∀ i, guidance_combine g U C i = U i + g * (C i - U i)) ∧
    guidance_combine 1 U C = C ∧
    guidance_combine 0 U C = U ∧
    diffusion_denoise_step M g latents t =
      M.scheduler_step
        (guidance_combine g (M.unet t (M.scale_model_input t latents)).1
          (M.unet t (M.scale_model_input t latents)).2) t latents := by
  refine ⟨fun i => rfl, ?_, ?_, rfl⟩
  · funext i
    unfold guidance_combine
    ring
  · funext i
    unfold guidance_combine
    ring

/-- C8: in `sdmiae_attack` the momentum used in iteration `k`'s image
update obeys `momentum = mu * momentum + normalized_gradient` with the
accumulator carried over from iteration `k - 1` (never reset), where the
normalized gradient is the loss gradient at iteration `k`'s input images
divided by its L1 norm plus `1e-10`; and with `mu = 0` that momentum is
exactly the normalized gradient of iteration `k`, with no contribution
from earlier iterations. -/
theorem momentum_update_relation {ι : Type} [Fintype ι]
    (gradOf : Tensor ι → Tensor ι) (orig images : Tensor ι)
    (eps alpha mu : ℚ) (use_epsilon : Bool) (k : ℕ) :
    (∀ i, ((attackStep gradOf orig eps alpha mu use_epsilon)^[k + 1]
          (attackInit images)).momentum i =
        mu * ((attackStep gradOf orig eps alpha mu use_epsilon)^[k]
          (attackInit images)).momentum i +
        normalizeGrad (gradOf
          (((attackStep gradOf orig eps alpha mu use_epsilon)^[k]
            (attackInit images)).images)) i) ∧
    (∀ i, ((attackStep gradOf orig eps alpha 0 use_epsilon)^[k + 1]
          (attackInit images)).momentum i =
        normalizeGrad (gradOf
          (((attackStep gradOf orig eps alpha 0 use_epsilon)^[k]
            (attackInit images)).images)) i) := by
  constructor
  · intro i
    rw [Function.iterate_succ_apply', attackStep_momentum]
  · intro i
    rw [Function.iterate_succ_apply', attackStep_momentum, zero_mul, zero_add]

/-- C1: with `use_epsilon = true`, for every input image batch with pixel
values in `[0, 1]`, every `epsilon ≥ 0`, every `num_iter ≥ 1` and every
`mu`, the image after each of the `num_iter` iterations — and the returned
final image — differs from the original input snapshot by at most
`epsilon` in every component; the bound is relative to the original image
captured at attack start. -/
theorem epsilon_ball_invariant {ι : Type} [Fintype ι]
    (gradOf : Tensor ι → Tensor ι) (images : Tensor ι) (epsilon mu : ℚ)
    (num_iter : ℕ)
    (h0 : ∀ i, 0 ≤ images i) (h1 : ∀ i, images i ≤ 1)
    (he : 0 ≤ epsilon) (hn : 1 ≤ num_iter) :
    (∀ k, k ≤ num_iter → ∀ i,
        |((attackStep gradOf images epsilon (epsilon / (num_iter : ℚ)) mu
            true)^[k] (attackInit images)).images i - images i| ≤ epsilon) ∧
    (∀ out, sdmiae_attack gradOf images epsilon num_iter mu true = .ok out →
        ∀ i, |out i - images i| ≤ epsilon) := by
  have key : ∀ k i,
      |((attackStep gradOf images epsilon (epsilon / (num_iter : ℚ)) mu
          true)^[k] (attackInit images)).images i - images i| ≤ epsilon := by
    intro k i
    cases k with
    | zero => simpa [attackInit] using he
    | succ k =>
      rw [Function.iterate_succ_apply', attackStep_images_true]
      obtain ⟨hb1, hb2⟩ := ball_clamp_mem (images i) epsilon
        (((attackStep gradOf images epsilon (epsilon / (num_iter : ℚ)) mu
            true)^[k] (attackInit images)).images i +
          epsilon / (num_iter : ℚ) *
          rsign (mu * ((attackStep gradOf images epsilon
              (epsilon / (num_iter : ℚ)) mu true)^[k]
              (attackInit images)).momentum i +
            normalizeGrad (gradOf (((attackStep gradOf images epsilon
              (epsilon / (num_iter : ℚ)) mu true)^[k]
              (attackInit images)).images)) i)) he
      obtain ⟨hc1, hc2⟩ := clamp01_ball_mem (h0 i) (h1 i) hb1 hb2
      rw [abs_le]
      constructor <;> linarith
  refine ⟨fun k _ i => key k i, fun out hout i => ?_⟩
  unfold sdmiae_attack at hout
  rw [if_neg (show ¬ num_iter = 0 by omega)] at hout
  simp only [Except.ok.injEq] at hout
  rw [← hout]
  exact key num_iter i

/-- C2: for every input, every `num_iter ≥ 1` and both values of
`use_epsilon`, every pixel of the image at the end of each iteration — and
of the returned final image — lies in `[0, 1]`; the `[0, 1]` clamp is
applied on every iteration regardless of the epsilon-ball flag. -/
theorem pixel_range_invariant {ι : Type} [Fintype ι]
    (gradOf : Tensor ι → Tensor ι) (images : Tensor ι) (epsilon mu : ℚ)
    (num_iter : ℕ) (use_epsilon : Bool) (hn : 1 ≤ num_iter) :
    (∀ k, 1 ≤ k → k ≤ num_iter → ∀ i,
        0 ≤ ((attackStep gradOf images epsilon (epsilon / (num_iter : ℚ)) mu
            use_epsilon)^[k] (attackInit images)).images i ∧
        ((attackStep gradOf images epsilon (epsilon / (num_iter : ℚ)) mu
            use_epsilon)^[k] (attackInit images)).images i ≤ 1) ∧
    (∀ out, sdmiae_attack gradOf images epsilon num_iter mu use_epsilon =
        .ok out → ∀ i, 0 ≤ out i ∧ out i ≤ 1) := by
  have key : ∀ k, 1 ≤ k → ∀ i,
      0 ≤ ((attackStep gradOf images epsilon (epsilon / (num_iter : ℚ)) mu
          use_epsilon)^[k] (attackInit images)).images i ∧
      ((attackStep gradOf images epsilon (epsilon / (num_iter : ℚ)) mu
          use_epsilon)^[k] (attackInit images)).images i ≤ 1 := by
    intro k hk i
    cases k with
    | zero => omega
    | succ k =>
      rw [Function.iterate_succ_apply']
      exact attackStep_images_mem gradOf images epsilon
        (epsilon / (num_iter : ℚ)) mu use_epsilon _ i
  refine ⟨fun k hk _ i => key k hk i, fun out hout i => ?_⟩
  unfold sdmiae_attack at hout
  rw [if_neg (show ¬ num_iter = 0 by omega)] at hout
  simp only [Except.ok.injEq] at hout
  rw [← hout]
  exact key num_iter hn i

/-- C7: with `epsilon = 0` and `use_epsilon = true`, for every
`num_iter ≥ 1`, every `mu` and every input image with values in `[0, 1]`,
the image after every iteration — and the returned image — equals the
original input exactly: `alpha = 0` and the zero-width epsilon clamp force
no change. -/
theorem zero_epsilon_identity {ι : Type} [Fintype ι]
    (gradOf : Tensor ι → Tensor ι) (images : Tensor ι) (mu : ℚ)
    (num_iter : ℕ)
    (h0 : ∀ i, 0 ≤ images i) (h1 : ∀ i, images i ≤ 1) (hn : 1 ≤ num_iter) :
    (∀ k, ((attackStep gradOf images 0 (0 / (num_iter : ℚ)) mu true)^[k]
        (attackInit images)).images = images) ∧
    sdmiae_attack gradOf images 0 num_iter mu true = .ok images := by
  have key : ∀ k, ((attackStep gradOf images 0 (0 / (num_iter : ℚ)) mu
      true)^[k] (attackInit images)).images = images := by
    intro k
    induction k with
    | zero => rfl
    | succ k ih =>
      funext i
      rw [Function.iterate_succ_apply', attackStep_images_true, ih,
        zero_div, zero_mul, add_zero, sub_zero, min_self, max_self,
        clamp01_of_mem (h0 i) (h1 i)]
  refine ⟨key, ?_⟩
  unfold sdmiae_attack
  rw [if_neg (show ¬ num_iter = 0 by omega)]
  rw [show (0 : ℚ) / (num_iter : ℚ) = 0 / (num_iter : ℚ) from rfl]
  exact congrArg Except.ok (key num_iter)

/-- Witness for C1: the epsilon-ball invariant evaluated at a concrete
single-pixel attack (uniform gray input, everywhere-positive gradient,
`epsilon = 3/100`, one iteration). -/
theorem epsilon_ball_invariant_witness :
    (∀ i : Fin 1, 0 ≤ (fun _ : Fin 1 => (1 : ℚ)/2) i) ∧
    (∀ i : Fin 1, (fun _ : Fin 1 => (1 : ℚ)/2) i ≤ 1) ∧
    (0 : ℚ) ≤ 3/100 ∧ 1 ≤ 1 ∧
    ((∀ k, k ≤ 1 → ∀ i : Fin 1,
        |((attackStep (fun _ _ => (1 : ℚ)) (fun _ => (1 : ℚ)/2) (3/100)
            ((3/100) / ((1 : ℕ) : ℚ)) 0 true)^[k]
          (attackInit (fun _ => (1 : ℚ)/2))).images i - (1 : ℚ)/2| ≤ 3/100) ∧
     (∀ out, sdmiae_attack (fun _ _ => (1 : ℚ)) (fun _ => (1 : ℚ)/2) (3/100)
          1 0 true = .ok out → ∀ i : Fin 1, |out i - (1 : ℚ)/2| ≤ 3/100)) :=
  ⟨fun _ => by norm_num, fun _ => by norm_num, by norm_num, le_rfl,
    epsilon_ball_invariant (ι := Fin 1) (fun _ _ => 1) (fun _ => 1/2) (3/100) 0 1
      (fun _ => by norm_num) (fun _ => by norm_num) (by norm_num) le_rfl⟩

/-- Witness for C2: the pixel-range invariant evaluated at a concrete
single-pixel attack with one iteration and both clamps active. -/
theorem pixel_range_invariant_witness :
    1 ≤ 1 ∧
    ((∀ k, 1 ≤ k → k ≤ 1 → ∀ i : Fin 1,
        0 ≤ ((attackStep (fun _ _ => (1 : ℚ)) (fun _ => (1 : ℚ)/2) (3/100)
            ((3/100) / ((1 : ℕ) : ℚ)) 0 true)^[k]
          (attackInit (fun _ => (1 : ℚ)/2))).images i ∧
        ((attackStep (fun _ _ => (1 : ℚ)) (fun _ => (1 : ℚ)/2) (3/100)
            ((3/100) / ((1 : ℕ) : ℚ)) 0 true)^[k]
          (attackInit (fun _ => (1 : ℚ)/2))).images i ≤ 1) ∧
     (∀ out, sdmiae_attack (fun _ _ => (1 : ℚ)) (fun _ => (1 : ℚ)/2) (3/100)
          1 0 true = .ok out → ∀ i : Fin 1, 0 ≤ out i ∧ out i ≤ 1)) :=
  ⟨le_rfl,
    pixel_range_invariant (ι := Fin 1) (fun _ _ => 1) (fun _ => 1/2) (3/100) 0 1 true le_rfl⟩

/-- Witness for C7: the zero-epsilon identity evaluated at a concrete
single-pixel attack with three iterations. -/
theorem zero_epsilon_identity_witness :
    (∀ i : Fin 1, 0 ≤ (fun _ : Fin 1 => (1 : ℚ)/2) i) ∧
    (∀ i : Fin 1, (fun _ : Fin 1 => (1 : ℚ)/2) i ≤ 1) ∧
    1 ≤ 3 ∧
    ((∀ k, ((attackStep (fun _ _ => (1 : ℚ)) (fun _ => (1 : ℚ)/2) 0
          ((0 : ℚ) / ((3 : ℕ) : ℚ)) 0 true)^[k]
        (attackInit (fun _ : Fin 1 => (1 : ℚ)/2))).images =
          fun _ => (1 : ℚ)/2) ∧
     sdmiae_attack (fun _ _ => (1 : ℚ)) (fun _ : Fin 1 => (1 : ℚ)/2) 0 3 0
        true = .ok (fun _ => (1 : ℚ)/2)) :=
  ⟨fun _ => by norm_num, fun _ => by norm_num, by norm_num,
    zero_epsilon_identity (ι := Fin 1) (fun _ _ => 1) (fun _ => 1/2) 0 3
      (fun _ => by norm_num) (fun _ => by norm_num) (by norm_num)⟩

/-- C6: `num_iter = 1`, `mu = 0`, `epsilon = 3/100`, `use_epsilon = true`,
on a uniform image whose every pixel is `1/2`, with a gradient whose sign
is `+1` in every component: the attack returns the uniform image
`min (1/2 + 3/100) 1 = 53/100` — the single step adds
`alpha = epsilon / num_iter = 3/100` in the sign direction and both clamps
leave the result unchanged. -/
theorem scenario_uniform_gray {ι : Type} [Fintype ι]
    (gradOf : Tensor ι → Tensor ι)
    (hpos : ∀ i, 0 < gradOf (fun _ => 1/2) i) :
    sdmiae_attack gradOf (fun _ => 1/2) (3/100) 1 0 true =
      .ok (fun _ => 53/100) := by
  unfold sdmiae_attack
  rw [if_neg one_ne_zero]
  refine congrArg Except.ok ?_
  funext i
  rw [Function.iterate_one, attackStep_images_true]
  simp only [attackInit]
  rw [zero_mul, zero_add, rsign_of_pos (normalizeGrad_pos _ i (hpos i))]
  norm_num [clamp01, min_def, max_def]

/-- Witness for C6: the scenario evaluated at the constant gradient
oracle `1` over a single-pixel image. -/
theorem scenario_uniform_gray_witness :
    (∀ i : Fin 1, 0 < (fun _ _ => (1 : ℚ)) (fun _ : Fin 1 => (1 : ℚ)/2) i) ∧
    sdmiae_attack (fun _ _ => (1 : ℚ)) (fun _ : Fin 1 => (1 : ℚ)/2) (3/100)
      1 0 true = .ok (fun _ => 53/100) :=
  ⟨fun _ => by norm_num,
    scenario_uniform_gray (ι := Fin 1) (fun _ _ => 1) (fun _ => by norm_num)⟩

/-- C10: calling `sdmiae_attack` with `num_iter = 0` yields the
division-by-zero error from `alpha = epsilon / num_iter`, without the
classifier (gradient oracle) ever being consulted and without any image in
the result; for `num_iter ≥ 1` the attack returns an image normally, and
the only other division in the attack — the gradient normalization — has
the strictly positive denominator `l1norm + 1e-10`. -/
theorem num_iter_zero_division {ι : Type} [Fintype ι]
    (gradOf : Tensor ι → Tensor ι) (images : Tensor ι) (epsilon mu : ℚ)
    (num_iter : ℕ) (use_epsilon : Bool) :
    sdmiae_attack gradOf images epsilon 0 mu use_epsilon =
        .error "ZeroDivisionError" ∧
    (∀ gradOf2 : Tensor ι → Tensor ι,
        sdmiae_attack gradOf2 images epsilon 0 mu use_epsilon =
        sdmiae_attack gradOf images epsilon 0 mu use_epsilon) ∧
    (1 ≤ num_iter → ∃ out,
        sdmiae_attack gradOf images epsilon num_iter mu use_epsilon =
          .ok out) ∧
    (∀ v : Tensor ι, 0 < l1norm v + 1 / 10 ^ 10) := by
  have herr : ∀ g2 : Tensor ι → Tensor ι,
      sdmiae_attack g2 images epsilon 0 mu use_epsilon =
        .error "ZeroDivisionError" := by
    intro g2
    unfold sdmiae_attack
    rw [if_pos rfl]
  refine ⟨herr gradOf, fun g2 => by rw [herr g2, herr gradOf], fun hn =>
    ⟨((attackStep gradOf images epsilon (epsilon / (num_iter : ℚ)) mu
        use_epsilon)^[num_iter] (attackInit images)).images, ?_⟩,
    l1norm_denom_pos⟩
  unfold sdmiae_attack
  rw [if_neg (show ¬ num_iter = 0 by omega)]

/-- Witness for C10: the division-by-zero behavior evaluated at concrete
single-pixel inputs with `num_iter = 0` and `num_iter = 1`. -/
theorem num_iter_zero_division_witness :
    sdmiae_attack (fun _ _ => (1 : ℚ)) (fun _ : Fin 1 => (1 : ℚ)/2) (3/100)
        0 0 true = .error "ZeroDivisionError" ∧
    (∃ out, sdmiae_attack (fun _ _ => (1 : ℚ)) (fun _ : Fin 1 => (1 : ℚ)/2)
        (3/100) 1 0 true = .ok out) ∧
    (∀ v : Tensor (Fin 1), 0 < l1norm v + 1 / 10 ^ 10) :=
  ⟨(num_iter_zero_division (ι := Fin 1) (fun _ _ => 1) (fun _ => 1/2)
      (3/100) 0 1 true).1,
   (num_iter_zero_division (ι := Fin 1) (fun _ _ => 1) (fun _ => 1/2)
      (3/100) 0 1 true).2.2.1 le_rfl,
   (num_iter_zero_division (ι := Fin 1) (fun _ _ => 1) (fun _ => 1/2)
      (3/100) 0 1 true).2.2.2⟩

/-- With `use_epsilon = false` the displacement of any component from the
original snapshot grows by at most `alpha` per iteration: after `k`
iterations it is at most `k * alpha`. -/
lemma attack_displacement_le {ι : Type} [Fintype ι]
    (gradOf : Tensor ι → Tensor ι) (images : Tensor ι) (eps mu alpha : ℚ)
    (h0 : ∀ i, 0 ≤ images i) (h1 : ∀ i, images i ≤ 1) (ha : 0 ≤ alpha) :
    ∀ k i, |((attackStep gradOf images eps alpha mu false)^[k]
        (attackInit images)).images i - images i| ≤ (k : ℚ) * alpha := by
  intro k
  induction k with
  | zero => intro i; simp [attackInit]
  | succ k ih =>
    intro i
    rw [Function.iterate_succ_apply', attackStep_images_false]
    have hmem := h0 i
    have hmem1 := h1 i
    set s := (attackStep gradOf images eps alpha mu false)^[k]
      (attackInit images) with hs
    set c := alpha * rsign (0 * s.momentum i +
      normalizeGrad (gradOf s.images) i) with hc
    have step1 : |clamp01 (s.images i + alpha * rsign (mu * s.momentum i +
        normalizeGrad (gradOf s.images) i)) - images i| ≤
        |s.images i + alpha * rsign (mu * s.momentum i +
          normalizeGrad (gradOf s.images) i) - images i| :=
      abs_clamp01_sub_le hmem hmem1 _
    have step2 : |s.images i + alpha * rsign (mu * s.momentum i +
        normalizeGrad (gradOf s.images) i) - images i| ≤
        |s.images i - images i| + |alpha * rsign (mu * s.momentum i +
          normalizeGrad (gradOf s.images) i)| := by
      have hre : s.images i + alpha * rsign (mu * s.momentum i +
          normalizeGrad (gradOf s.images) i) - images i =
          (s.images i - images i) + alpha * rsign (mu * s.momentum i +
            normalizeGrad (gradOf s.images) i) := by ring
      rw [hre]
      exact abs_add _ _
    have step3 : |alpha * rsign (mu * s.momentum i +
        normalizeGrad (gradOf s.images) i)| ≤ alpha := by
      rw [abs_mul, abs_of_nonneg ha]
      calc alpha * |rsign (mu * s.momentum i +
            normalizeGrad (gradOf s.images) i)| ≤ alpha * 1 :=
            mul_le_mul_of_nonneg_left (abs_rsign_le_one _) ha
        _ = alpha := mul_one alpha
    have hcast : ((k + 1 : ℕ) : ℚ) = (k : ℚ) + 1 := by push_cast; ring
    have := ih i
    rw [hcast]
    linarith [step1, step2, step3, this]

/-- C4 counterexample: the claim asserts the existence of an input on
which `sdmiae_attack` with `use_epsilon = false` moves some component
strictly beyond `epsilon`; no such input exists.  Since
`alpha = epsilon / num_iter` and each of the `num_iter` iterations moves
each component by at most `alpha` (and the `[0, 1]` clamp never increases
the distance to a component that starts in `[0, 1]`), the total
displacement is at most `num_iter * alpha = epsilon`. -/
theorem unconstrained_overshoot_counterexample :
    ¬ ∃ (ι : Type) (inst : Fintype ι) (gradOf : Tensor ι → Tensor ι)
        (images : Tensor ι) (epsilon mu : ℚ) (num_iter : ℕ)
        (out : Tensor ι) (i : ι),
        (∀ j, 0 ≤ images j ∧ images j ≤ 1) ∧ 0 ≤ epsilon ∧ 1 ≤ num_iter ∧
        (@sdmiae_attack ι inst gradOf images epsilon num_iter mu false =
          .ok out) ∧
        (∀ j, 0 ≤ out j ∧ out j ≤ 1) ∧
        epsilon < |out i - images i| := by
  rintro ⟨ι, inst, gradOf, images, eps, mu, n, out, i, hrange, he, hn, hout,
    houtrange, hlt⟩
  have hne : ¬ n = 0 := by omega
  unfold sdmiae_attack at hout
  rw [if_neg hne] at hout
  simp only [Except.ok.injEq] at hout
  have halpha : (0 : ℚ) ≤ eps / (n : ℚ) :=
    div_nonneg he (Nat.cast_nonneg n)
  have hdisp := attack_displacement_le gradOf images eps mu (eps / (n : ℚ))
    (fun j => (hrange j).1) (fun j => (hrange j).2) halpha n i
  rw [hout] at hdisp
  have hcast : ((n : ℚ)) ≠ 0 := Nat.cast_ne_zero.mpr hne
  have hmul : (n : ℚ) * (eps / (n : ℚ)) = eps := by
    field_simp
  rw [hmul] at hdisp
  linarith

/-- One unconstrained attack iteration from a uniform image with an
everywhere-positive gradient adds `alpha = epsilon / 1` to every component
and then clamps to `[0, 1]`. -/
lemma one_step_unconstrained {ι : Type} [Fintype ι]
    (gradOf : Tensor ι → Tensor ι) (c eps : ℚ)
    (hpos : ∀ i, 0 < gradOf (fun _ => c) i) :
    sdmiae_attack gradOf (fun _ => c) eps 1 0 false =
      .ok (fun _ => clamp01 (c + eps)) := by
  unfold sdmiae_attack
  rw [if_neg one_ne_zero]
  refine congrArg Except.ok ?_
  funext i
  rw [Function.iterate_one, attackStep_images_false]
  simp only [attackInit]
  rw [zero_mul, zero_add, rsign_of_pos (normalizeGrad_pos _ i (hpos i))]
  norm_num

/-- C4 amended: with `use_epsilon = false` there is an input image batch in
`[0, 1]`, an `epsilon ≥ 0`, a `num_iter ≥ 1` and a `mu` such that some
component of the returned image differs from the original by *exactly*
`epsilon` (the displacement can reach, but never strictly exceed, the
budget), while the returned image lies in `[0, 1]` componentwise. -/
theorem unconstrained_displacement_reaches_epsilon :
    ∃ (gradOf : Tensor (Fin 1) → Tensor (Fin 1)) (images : Tensor (Fin 1))
      (epsilon mu : ℚ) (num_iter : ℕ) (out : Tensor (Fin 1)) (i : Fin 1),
      (∀ j, 0 ≤ images j ∧ images j ≤ 1) ∧ 0 ≤ epsilon ∧ 1 ≤ num_iter ∧
      sdmiae_attack gradOf images epsilon num_iter mu false = .ok out ∧
      (∀ j, 0 ≤ out j ∧ out j ≤ 1) ∧
      |out i - images i| = epsilon := by
  refine ⟨fun _ _ => 1, fun _ => 1/2, 3/10, 0, 1,
    fun _ => clamp01 (1/2 + 3/10), 0,
    fun j => by norm_num, by norm_num, le_rfl,
    one_step_unconstrained (fun _ _ => 1) (1/2) (3/10) (fun _ => by norm_num),
    fun j => ⟨clamp01_nonneg _, clamp01_le_one _⟩, ?_⟩
  rw [clamp01_of_mem (by norm_num) (by norm_num)]
  rw [show (1 : ℚ)/2 + 3/10 - 1/2 = 3/10 by ring]
  rw [abs_of_nonneg (by norm_num)]

/-- A concrete trivial diffusion pipeline over single-component tensors,
used to evaluate the orchestrator embedding on explicit inputs. -/
def trivialModel : DiffusionModel (Fin 1) (Fin 1) where
  scale_model_input := fun _ l => l
  unet := fun _ l => (l, l)
  scheduler_step := fun _ _ l => l
  scaling_factor := 1
  vae_decode := id
  postprocess := id

/-- C3 counterexample: with the draw stream `randn n = (fun _ => n)`,
`init_noise_sigma = 1` and two samples per class, the latent passed to
`forward_diffusion` for sample `1` is the same draw-0 tensor passed for
sample `0` — it is not the tensor a fresh draw for sample `1`
(`fun _ => 1`, the next tensor `torch.randn` would produce) would give, so
it is not a newly drawn random tensor. -/
theorem fresh_latent_per_sample_counterexample :
    ((processClass trivialModel (fun n _ => (n : ℚ)) 1 [] 1 2).map
        Prod.fst)[1]? = some (fun _ => (0 : ℚ)) ∧
    ((processClass trivialModel (fun n _ => (n : ℚ)) 1 [] 1 2).map
        Prod.fst)[0]? = some (fun _ => (0 : ℚ)) ∧
    (fun _ : Fin 1 => (0 : ℚ)) ≠ fun _ : Fin 1 => (1 : ℚ) := by
  refine ⟨?_, ?_, fun h => ?_⟩
  · unfold processClass
    simp only [List.map_map, List.getElem?_map, List.getElem?_range]
    norm_num
  · unfold processClass
    simp only [List.map_map, List.getElem?_map, List.getElem?_range]
    norm_num
  · have h0 := congrFun h 0
    norm_num at h0

/-- C3 amended: in the Orchestrator (`main`), the latent noise tensor
scaled by the scheduler's initial noise sigma is drawn once per class,
before the per-class sample loop; the latent passed to `forward_diffusion`
for every sample `j` of the class is that same per-class tensor, reused for
every sample of the class rather than freshly drawn per sample. -/
theorem latent_drawn_once_per_class {ι κ : Type} (M : DiffusionModel ι κ)
    (randn : ℕ → Tensor ι) (init_noise_sigma : ℚ) (timesteps : List ℕ)
    (guidance_scale : ℚ) (num_samples j : ℕ) (hj : j < num_samples) :
    (processClass M randn init_noise_sigma timesteps guidance_scale
        num_samples)[j]? =
      some ((fun x => randn 0 x * init_noise_sigma),
        forward_diffusion M timesteps guidance_scale
          (fun x => randn 0 x * init_noise_sigma)) := by
  unfold processClass
  simp [List.getElem?_map, List.getElem?_range, hj]

/-- Witness for the amended C3: the per-class latent flow evaluated on a
concrete pipeline with two samples, at sample index `1`. -/
theorem latent_drawn_once_per_class_witness :
    (1 : ℕ) < 2 ∧
    (processClass trivialModel (fun n _ => (n : ℚ)) 1 [] 1 2)[1]? =
      some ((fun x => (fun n _ => (n : ℚ)) 0 x * 1),
        forward_diffusion trivialModel [] 1
          (fun x => (fun n _ => (n : ℚ)) 0 x * 1)) :=
  ⟨by norm_num,
    latent_drawn_once_per_class trivialModel (fun n _ => (n : ℚ)) 1 [] 1 2 1
      (by norm_num)⟩

/-- C9: `forward_diffusion` never writes to its `latents` argument in
place — every latent update in its body rebinds the local name, so after
the call returns the caller's latent tensor holds exactly the values it
held before the call; consequently, in `main`, every sample generated for
a given class starts the diffusion from the same latent tensor values. -/
theorem forward_diffusion_no_mutation {ι κ : Type} (M : DiffusionModel ι κ)
    (timesteps : List ℕ) (guidance_scale : ℚ) (latents : Tensor ι)
    (randn : ℕ → Tensor ι) (init_noise_sigma : ℚ) (num_samples j : ℕ)
    (hj : j < num_samples) :
    forward_diffusion_callerLatents M timesteps guidance_scale latents =
      latents ∧
    (processClass M randn init_noise_sigma timesteps guidance_scale
        num_samples)[j]? =
      (processClass M randn init_noise_sigma timesteps guidance_scale
        num_samples)[0]? := by
  have h0 : 0 < num_samples := by omega
  refine ⟨rfl, ?_⟩
  unfold processClass
  simp [List.getElem?_map, List.getElem?_range, hj, h0]

/-- Witness for C9: the frame property and the shared per-class latent
evaluated on a concrete pipeline with two samples. -/
theorem forward_diffusion_no_mutation_witness :
    (1 : ℕ) < 2 ∧
    forward_diffusion_callerLatents trivialModel [] 1
        (fun _ : Fin 1 => (1 : ℚ)) = (fun _ : Fin 1 => (1 : ℚ)) ∧
    (processClass trivialModel (fun n _ => (n : ℚ)) 1 [] 1 2)[1]? =
      (processClass trivialModel (fun n _ => (n : ℚ)) 1 [] 1 2)[0]? :=
  ⟨by norm_num,
   (forward_diffusion_no_mutation trivialModel [] 1 (fun _ => 1)
      (fun n _ => (n : ℚ)) 1 2 1 (by norm_num)).1,
   (forward_diffusion_no_mutation trivialModel [] 1 (fun _ => 1)
      (fun n _ => (n : ℚ)) 1 2 1 (by norm_num)).2⟩

end SDMIAE
